import Mathlib

/-!
# Verification of the Royal Mini Golf scorekeeping core (`src/app.js`)

Shallow embedding of the game-state record, the pure scoring helpers, the
hole-progression transitions and the persistence adapter of `app.js`
(the authoritative v2.0 variant, lines 1388-2373 of the source file).
JavaScript numbers that the program only ever uses as integers are modelled
as `Int`/`Nat`.  Parsed persisted snapshots are modelled twice: by `JVal`
with integer numbers, exact for the snapshots the program itself writes
(the save/load round trip), and by `JValQ` with rational numbers for
arbitrary stored snapshots, whose numbers can be any double — the load
validation accepts non-integral numbers, so the integer model would hide
them.  DOM rendering, haptics and the decorative narrative text are out of
scope (they never influence the modelled state).
-/

namespace Golf

/-- The course identifiers: exactly the keys of `courseNames`/`coursePars`. -/
inductive Course where
  | dragon
  | knight
deriving DecidableEq, Repr

/-- The string key a `Course` is stored under (`'dragon'` / `'knight'`). -/
def courseKey : Course → String
  | .dragon => "dragon"
  | .knight => "knight"

/-- Source constant `HOLES_COUNT = 18`. -/
def HOLES_COUNT : Nat := 18

/-- Source constant `MAX_PLAYERS = 6`. -/
def MAX_PLAYERS : Nat := 6

/-- Table `coursePars`: the per-hole par sequences of the two courses. -/
def coursePars : Course → List Int
  | .dragon => [2, 3, 2, 3, 2, 3, 2, 3, 2, 3, 2, 3, 2, 3, 2, 3, 2, 4]
  | .knight => [2, 3, 2, 3, 2, 3, 2, 3, 2, 3, 2, 3, 2, 3, 2, 3, 2, 4]

/-- A player record: `{ name, scores, total }`.  A score slot holds `none`
for JavaScript `null` (unscored) or `some s` for an entered stroke count.
Invariant maintained by the program: `scores.length = HOLES_COUNT`. -/
structure Player where
  name : String
  scores : List (Option Int)
  total : Int
deriving DecidableEq, Repr

/-- Expression `scores.filter(s => s !== null).reduce((sum, s) => sum + s, 0)`:
the running total, recomputed from the non-null slots. -/
def recomputeTotal (scores : List (Option Int)) : Int :=
  (scores.filterMap id).sum

/-- The four mutable globals of the game state:
`currentCourse`, `players`, `currentHole`, `gameStarted`. -/
structure GameState where
  currentCourse : Course
  players : List Player
  currentHole : Nat
  gameStarted : Bool
deriving DecidableEq, Repr

/-- Result of `getScoreDescription`: `{ text, class }`; the CSS class is the
score category.  The `class` field is named `cls` (`class` is a Lean
keyword). -/
structure ScoreDesc where
  text : String
  cls : String
deriving DecidableEq, Repr

/-- Function `getScoreDescription(strokes, par)` (lines 1473-1483): the ordered
cascade of checks, literal-stroke hole-in-one first. -/
def getScoreDescription (strokes par : Int) : ScoreDesc :=
  let diff := strokes - par
  if strokes = 1 then ⟨"Hole in One! ⭐", "hole-in-one"⟩
  else if diff ≤ -2 then ⟨"Eagle! (" ++ toString diff ++ ") 🦅", "eagle"⟩
  else if diff = -1 then ⟨"Birdie! (−1) 🐦", "birdie"⟩
  else if diff = 0 then ⟨"Par ✓", "par"⟩
  else if diff = 1 then ⟨"Bogey (+1)", "bogey"⟩
  else if diff = 2 then ⟨"Double Bogey (+2)", "double-bogey"⟩
  else ⟨"+" ++ toString diff, "high-score"⟩

/-- The accumulator of the loop in `getParDifferential`:
`for (let i = 0; i <= currentHole && i < pars.length; i++) { if
(player.scores[i] !== null) { parTotal += pars[i]; holesPlayed++; } }`.
`parTotalLoop player pars n` is `(parTotal, holesPlayed)` after the
iterations `i = 0 .. n-1`.  (Score slots are read with `getD i none`;
faithful for `i < scores.length`, and the program keeps every score array
at length `HOLES_COUNT`.) -/
def parTotalLoop (player : Player) (pars : List Int) : Nat → Int × Nat
  | 0 => (0, 0)
  | n + 1 =>
    let acc := parTotalLoop player pars n
    if (player.scores.getD n none).isSome then (acc.1 + pars.getD n 0, acc.2 + 1)
    else acc

/-- Function `getParDifferential(player)` (lines 1485-1506).  In the source the
course and the current hole index are the globals `currentCourse` and
`currentHole`; here they are explicit arguments.  The `isValidCourse`
guard of the source is always satisfied: `Course` ranges over exactly the
recognized identifiers. -/
def getParDifferential (course : Course) (currentHole : Nat) (player : Player) : String :=
  let pars := coursePars course
  let acc := parTotalLoop player pars (min (currentHole + 1) pars.length)
  if acc.2 = 0 then "E"
  else
    let diff := player.total - acc.1
    if diff = 0 then "E"
    else if diff > 0 then "+" ++ toString diff else toString diff

/-- The leaderboard ordering of `buildLeaderboard` (line 1837):
`[...players].sort((a, b) => a.total - b.total)`.  ECMAScript
`Array.prototype.sort` is a stable sort, and the comparator orders by
ascending `total`; it is modelled by the stable insertion sort on the
relation `a.total ≤ b.total`. -/
def rank (players : List Player) : List Player :=
  players.insertionSort (fun a b => a.total ≤ b.total)

/-- The achievements pushed for one score slot in `buildLeaderboard`
(lines 1878-1883): `if (score === 1)` pushes Hole in One, and
`if (score !== null && score - par <= -2)` pushes Eagle. -/
def holeAchievements (score : Option Int) (par : Int) : List String :=
  (if score = some 1 then ["⭐ Hole in One"] else []) ++
    (match score with
      | some s => if s - par ≤ -2 then ["🦅 Eagle"] else []
      | none => [])

/-- The achievement list of one player on the leaderboard
(`player.scores.forEach((score, hi) => ...)`, lines 1878-1883), in hole
order. -/
def achievementsOf (course : Course) (player : Player) : List String :=
  ((player.scores.zip (coursePars course)).map
    (fun sp => holeAchievements sp.1 sp.2)).flatten

/-! ## Persistence adapter

`saveState` serializes `{course, hole, players: [{name, scores}],
gameStarted}` with `JSON.stringify`; `loadState` runs `JSON.parse` on the
stored string and validates the result.  The parsed JSON value is modelled
by `JVal` (`JSON.stringify ∘ JSON.parse` is the identity on such values,
so the adapter is modelled directly on `JVal`). -/

/-- A parsed JSON value with integer numbers.  Exact for the snapshots
the program itself writes (`saveState` stores only integer numbers), and
therefore for the save/load round trip; arbitrary stored snapshots, whose
numbers can be non-integral, are modelled by `JValQ` below. -/
inductive JVal where
  | null
  | bool (b : Bool)
  | num (n : Int)
  | str (s : String)
  | arr (elems : List JVal)
  | obj (fields : List (String × JVal))
deriving Repr

/-- Property access `v[key]`: `none` models JavaScript `undefined` (and
the property access on `null` that throws inside the `try`, which the
caller treats the same way). -/
def jGet (v : JVal) (key : String) : Option JVal :=
  match v with
  | .obj fields => fields.lookup key
  | _ => none

/-- JavaScript truthiness of a parsed JSON value. -/
def jTruthy : JVal → Bool
  | .null => false
  | .bool b => b
  | .num n => n != 0
  | .str s => s ≠ ""
  | .arr _ => true
  | .obj _ => true

/-- Truthiness of a possibly-`undefined` value. -/
def jTruthyOpt : Option JVal → Bool
  | some v => jTruthy v
  | none => false

/-- Conversion `String(v)` for an element of an array being joined (JavaScript
renders `null` as the empty string there); nested arrays are approximated
by the empty string — no claim exercises them. -/
def jElemString : JVal → String
  | .null => ""
  | .bool b => if b then "true" else "false"
  | .num n => toString n
  | .str s => s
  | .arr _ => ""
  | .obj _ => "[object Object]"

/-- Conversion `String(v)`: JavaScript string conversion of a parsed JSON value. -/
def jToString : JVal → String
  | .null => "null"
  | .bool b => if b then "true" else "false"
  | .num n => toString n
  | .str s => s
  | .arr xs => String.intercalate "," (xs.map jElemString)
  | .obj _ => "[object Object]"

/-- Predicate `isValidScore(strokes)` (lines 2281-2283):
`Number.isInteger(strokes) && strokes >= 1 && strokes <= 11`. -/
def isValidScore (strokes : Int) : Bool :=
  1 ≤ strokes && strokes ≤ 11

/-- The per-slot validation of `loadState`
(`(s !== null && isValidScore(s)) ? s : null`): only an integer in
`[1, 11]` is kept, any other value is coerced to `null`. -/
def loadScoreSlot : JVal → Option Int
  | .num n => if isValidScore n then some n else none
  | _ => none

/-- Predicate `isValidCourse(course)` (lines 2272-2274) applied to the raw loaded
value, returning the course it denotes:
`course && courseNames.hasOwnProperty(course) && coursePars.hasOwnProperty(course)`.
A non-string key is coerced to a string by `hasOwnProperty`, hence the
`jToString`. -/
def parseCourse : Option JVal → Option Course
  | some v =>
    if jTruthy v then
      if jToString v = "dragon" then some .dragon
      else if jToString v = "knight" then some .knight
      else none
    else none
  | none => none

/-- The `scores` field of one loaded player (lines 2202-2204):
an array of length `HOLES_COUNT` has each slot validated individually,
anything else is replaced by an all-`null` array. -/
def loadScores : Option JVal → List (Option Int)
  | some (.arr ss) =>
    if ss.length = HOLES_COUNT then ss.map loadScoreSlot
    else List.replicate HOLES_COUNT none
  | _ => List.replicate HOLES_COUNT none

/-- One loaded player (lines 2200-2211).  The name is
`(p && p.name) ? String(p.name).slice(0, 20) : 'Player'` (for every
parsed value `p`, `p && p.name` is truthy exactly when the `name`
property is, since falsy values are primitives without properties); the
total is set to `0` and then recomputed as the sum of the non-null
slots — it is never read from storage. -/
def loadPlayer (p : JVal) : Player :=
  let scores := loadScores (jGet p "scores")
  { name :=
      match jGet p "name" with
      | some v => if jTruthy v then (jToString v).take 20 else "Player"
      | none => "Player"
    scores := scores
    total := recomputeTotal scores }

/-- One serialized score slot: `null` or the stored integer. -/
def saveScoreJ : Option Int → JVal
  | none => .null
  | some n => .num n

/-- One serialized player: `{name: p.name, scores: p.scores}`. -/
def savePlayerJ (p : Player) : JVal :=
  .obj [("name", .str p.name), ("scores", .arr (p.scores.map saveScoreJ))]

/-- Function `saveState()` (lines 2141-2154): the snapshot
`{course, hole, players: players.map(p => ({name: p.name, scores: p.scores})), gameStarted}`. -/
def saveState (st : GameState) : JVal :=
  .obj
    [ ("course", .str (courseKey st.currentCourse))
    , ("hole", .num st.currentHole)
    , ("players", .arr (st.players.map savePlayerJ))
    , ("gameStarted", .bool st.gameStarted) ]

/-- Function `loadState()`: validation and state reconstruction (lines 2167-2220),
on a parsed snapshot with integer numbers (the shape `saveState` writes,
which is what the round-trip claims quantify over; see `loadStateQ` for
arbitrary snapshots): the course must be recognized, `players` must be a
non-empty array, `hole` must be a number in `[0, HOLES_COUNT)`; otherwise
the whole snapshot is discarded (the source also removes the stored entry
then).  `gameStarted = gs` is read into the boolean global, i.e. by
truthiness. -/
def loadState (v : JVal) : Option GameState :=
  match parseCourse (jGet v "course") with
  | none => none
  | some course =>
    match jGet v "players" with
    | some (.arr ps) =>
      if ps.length = 0 then none
      else
        match jGet v "hole" with
        | some (.num h) =>
          if 0 ≤ h ∧ h < (HOLES_COUNT : Int) then
            some
              { currentCourse := course
              , players := ps.map loadPlayer
              , currentHole := h.toNat
              , gameStarted := jTruthyOpt (jGet v "gameStarted") }
          else none
        | _ => none
    | _ => none

/-! ### Arbitrary stored snapshots: JSON numbers as rationals

The snapshots the program itself writes contain only integer numbers, so
the integer-numbered `JVal` above is exact for the save/load round trip.
An arbitrary stored value, however, can hold any double — and the hole
check of `loadState` (line 2184) is only
`typeof hole === 'number' && hole >= 0 && hole < HOLES_COUNT`, with no
integrality test, so `hole: 2.5` passes it.  To settle claims that
quantify over arbitrary snapshots, the adapter is embedded a second time
with JSON numbers carried as exact rationals (every double is rational,
and the comparisons here are exact).  `LoadedState` accordingly carries
the hole index as the raw accepted number. -/

/-- A parsed JSON value with numbers as rationals. -/
inductive JValQ where
  | null
  | bool (b : Bool)
  | num (q : ℚ)
  | str (s : String)
  | arr (elems : List JValQ)
  | obj (fields : List (String × JValQ))
deriving Repr

/-- Property access `v[key]` on a rational-numbered value; `none` models
`undefined` (and the throwing access on `null`, caught by the caller). -/
def jGetQ (v : JValQ) (key : String) : Option JValQ :=
  match v with
  | .obj fields => fields.lookup key
  | _ => none

/-- JavaScript truthiness of a rational-numbered value. -/
def jTruthyQ : JValQ → Bool
  | .null => false
  | .bool b => b
  | .num q => q != 0
  | .str s => s ≠ ""
  | .arr _ => true
  | .obj _ => true

/-- Truthiness of a possibly-`undefined` rational-numbered value. -/
def jTruthyOptQ : Option JValQ → Bool
  | some v => jTruthyQ v
  | none => false

/-- Conversion `String(v)` for an array element being joined (`null`
renders empty there); non-integral numbers render as rationals, an
approximation of the decimal rendering that no claim exercises. -/
def jElemStringQ : JValQ → String
  | .null => ""
  | .bool b => if b then "true" else "false"
  | .num q => toString q
  | .str s => s
  | .arr _ => ""
  | .obj _ => "[object Object]"

/-- Conversion `String(v)` of a rational-numbered value (see
`jElemStringQ` for the rendering of non-integral numbers). -/
def jToStringQ : JValQ → String
  | .null => "null"
  | .bool b => if b then "true" else "false"
  | .num q => toString q
  | .str s => s
  | .arr xs => String.intercalate "," (xs.map jElemStringQ)
  | .obj _ => "[object Object]"

/-- Predicate `isValidScore(strokes)` (lines 2281-2283) on a raw number:
`Number.isInteger(strokes) && strokes >= 1 && strokes <= 11` — an exact
rational is an integer when its denominator is 1. -/
def isValidScoreQ (q : ℚ) : Bool :=
  q.den = 1 && 1 ≤ q && q ≤ 11

/-- The per-slot validation of `loadState` over raw numbers: only an
integer in `[1, 11]` is kept, anything else — `null`, a non-number, an
out-of-range or non-integral number — is coerced to `null`. -/
def loadScoreSlotQ : JValQ → Option Int
  | .num q => if isValidScoreQ q then some q.num else none
  | _ => none

/-- Predicate `isValidCourse(course)` (lines 2272-2274) on the raw
loaded value, returning the course it denotes (property-key coercion via
`jToStringQ`, as in `parseCourse`). -/
def parseCourseQ : Option JValQ → Option Course
  | some v =>
    if jTruthyQ v then
      if jToStringQ v = "dragon" then some .dragon
      else if jToStringQ v = "knight" then some .knight
      else none
    else none
  | none => none

/-- The `scores` field of one loaded player (lines 2202-2204) over raw
numbers: an array of length `HOLES_COUNT` has each slot validated
individually, anything else is replaced by an all-`null` array. -/
def loadScoresQ : Option JValQ → List (Option Int)
  | some (.arr ss) =>
    if ss.length = HOLES_COUNT then ss.map loadScoreSlotQ
    else List.replicate HOLES_COUNT none
  | _ => List.replicate HOLES_COUNT none

/-- One loaded player (lines 2200-2211) over raw numbers; as in
`loadPlayer`, the total is recomputed from the validated scores, never
read from storage. -/
def loadPlayerQ (p : JValQ) : Player :=
  let scores := loadScoresQ (jGetQ p "scores")
  { name :=
      match jGetQ p "name" with
      | some v => if jTruthyQ v then (jToStringQ v).take 20 else "Player"
      | none => "Player"
    scores := scores
    total := recomputeTotal scores }

/-- The state `loadState` reconstructs from an arbitrary snapshot: as
`GameState`, but the current hole index is the raw accepted number
(`currentHole = hole` at line 2218 copies it verbatim, integral or
not). -/
structure LoadedState where
  currentCourse : Course
  players : List Player
  currentHole : ℚ
  gameStarted : Bool
deriving DecidableEq, Repr

/-- Function `loadState()` (lines 2167-2220) over an arbitrary parsed
snapshot: course recognized, `players` a non-empty array, `hole` a
number in `[0, HOLES_COUNT)` — `typeof hole === 'number'` plus the range
checks only, integrality is not tested; otherwise the snapshot is
discarded wholesale. -/
def loadStateQ (v : JValQ) : Option LoadedState :=
  match parseCourseQ (jGetQ v "course") with
  | none => none
  | some course =>
    match jGetQ v "players" with
    | some (.arr ps) =>
      if ps.length = 0 then none
      else
        match jGetQ v "hole" with
        | some (.num q) =>
          if 0 ≤ q ∧ q < (HOLES_COUNT : ℚ) then
            some
              { currentCourse := course
              , players := ps.map loadPlayerQ
              , currentHole := q
              , gameStarted := jTruthyOptQ (jGetQ v "gameStarted") }
          else none
        | _ => none
    | _ => none

/-! ## Hole-progression state machine

The transitions mutate the in-memory `GameState` and then persist (or
clear) the stored snapshot; `AppState` pairs the two.  Rendering calls
(`renderHole`, `updateMobileButtons`, toasts, history pushes) are
presentation-layer effects with no bearing on the modelled state; a
rejection (`showToast(...)`/silent `return`) leaves the state unchanged
and is modelled by `Except.error` carrying the reported reason. -/

/-- The in-memory game state together with the persisted snapshot
(`localStorage` under the single key `STORAGE_KEY`; `none` = absent). -/
structure AppState where
  game : GameState
  storage : Option JVal

/-- Predicate `isValidPlayerIndex(idx)` (lines 2290-2292):
`Number.isInteger(idx) && idx >= 0 && idx < players.length`. -/
def isValidPlayerIndex (players : List Player) (idx : Int) : Bool :=
  0 ≤ idx && idx < players.length

/-- Replace the element at index `n` (the in-place
`players[playerIdx] = ...` mutation). -/
def updateAt {α : Type} : Nat → (α → α) → List α → List α
  | _, _, [] => []
  | 0, f, x :: xs => f x :: xs
  | n + 1, f, x :: xs => x :: updateAt n f xs

/-- The mutation `updateScore` performs on a valid index (lines
1740-1743): set the player's slot at the current hole and recompute that
player's total from the non-null slots. -/
def applyScore (g : GameState) (idx : Nat) (strokes : Int) : GameState :=
  { g with
    players := updateAt idx
      (fun p =>
        let scores := p.scores.set g.currentHole (some strokes)
        { p with scores := scores, total := recomputeTotal scores })
      g.players }

/-- Function `updateScore(playerIdx, value)` (lines 1722-1755).  `value` arrives
here after `parseInt` (the `isNaN` early return filters non-numeric
input); the `isValidCourse` guard is always satisfied since `Course`
ranges over exactly the recognized identifiers.  On success the new state
is persisted (`saveState()`); the haptic `celebrateScore` is a
presentation effect. -/
def updateScore (st : AppState) (playerIdx : Int) (strokes : Int) :
    Except String AppState :=
  if ¬ isValidPlayerIndex st.game.players playerIdx then
    .error "Invalid player index"
  else if ¬ isValidScore strokes then
    .error "Invalid score value"
  else
    let g := applyScore st.game playerIdx.toNat strokes
    .ok { game := g, storage := some (saveState g) }

/-- Function `endGame()` (lines 1792-1815): leave play for the summary screen
(`gameStarted = false`, summary section shown, leaderboard built from the
final totals) and clear the persisted snapshot
(`localStorage.removeItem(STORAGE_KEY)`). -/
def endGame (st : AppState) : AppState :=
  { game := { st.game with gameStarted := false }, storage := none }

/-- Function `nextHole()` (lines 1774-1790): rejected with
"Enter scores for all players" while some player's current-hole slot is
`null`; otherwise advance and persist, or — on the last hole — `endGame()`. -/
def nextHole (st : AppState) : Except String AppState :=
  if st.game.players.any (fun p => (st.game.currentHole < p.scores.length) &&
      (p.scores.getD st.game.currentHole none).isNone) then
    .error "Enter scores for all players"
  else if st.game.currentHole < HOLES_COUNT - 1 then
    let g := { st.game with currentHole := st.game.currentHole + 1 }
    .ok { game := g, storage := some (saveState g) }
  else
    .ok (endGame st)

/-- Function `goBackToSetup()` (lines 1956-1992): leave play for the setup screen.
The players survive (their names are re-filled into the setup inputs) and
the persisted snapshot of the abandoned round is cleared. -/
def goBackToSetup (st : AppState) : AppState :=
  { game := { st.game with gameStarted := false }, storage := none }

/-- The `popstate` navigation handler (lines 2308-2330), which is the one
retreat transition (`previousHole()` drives it through `history.back()`):
while a round is in play, going back on the first hole returns to setup
and otherwise only decrements the current hole and persists.  The
modal-closing branch is presentation-only and does not touch the game
state. -/
def popstateRetreat (st : AppState) : AppState :=
  if st.game.gameStarted then
    if st.game.currentHole = 0 then goBackToSetup st
    else
      let g := { st.game with currentHole := st.game.currentHole - 1 }
      { game := g, storage := some (saveState g) }
  else st

/-- The player created from the setup input at position `i` (lines
1603-1607): `name: (input.value.trim() || 'Player ' + (i+1)).slice(0, 20),
scores: Array(HOLES_COUNT).fill(null), total: 0`. -/
def mkStartPlayer (i : Nat) (value : String) : Player :=
  { name := (if value.trim = "" then "Player " ++ toString (i + 1)
             else value.trim).take 20
    scores := List.replicate HOLES_COUNT none
    total := 0 }

/-- The game state `startGame()` installs for a given input list:
one player per input in order, hole index reset to `0`, `gameStarted`
set, the selected course kept. -/
def startedGame (st : AppState) (inputs : List String) : GameState :=
  { currentCourse := st.game.currentCourse
  , players := ((List.range inputs.length).zip inputs).map
      (fun iv => mkStartPlayer iv.1 iv.2)
  , currentHole := 0
  , gameStarted := true }

/-- Function `startGame()` (lines 1595-1634) on the ordered list of the raw setup
input values: rejected with "Add at least one player" when there are
none; otherwise one player per input, `gameStarted = true`,
`currentHole = 0`, and the fresh state persisted.  The `isValidCourse`
fallback never fires (`Course` ranges over the recognized identifiers),
and the second emptiness guard of the source is kept as written. -/
def startGame (st : AppState) (inputs : List String) : Except String AppState :=
  if inputs.length = 0 then .error "Add at least one player"
  else
    let g := startedGame st inputs
    if g.players.length = 0 then .error "Add at least one player"
    else .ok { game := g, storage := some (saveState g) }

/-! ## Spec-side formulations and concrete states used by the theorems -/

/-- A score slot as the data model allows it: `null` or an integer in
`[1, 11]`. -/
def validSlot : Option Int → Bool
  | none => true
  | some n => isValidScore n

/-- Whether an arbitrary snapshot passes the course check of
`loadState`. -/
def courseOKbQ (v : JValQ) : Bool :=
  (parseCourseQ (jGetQ v "course")).isSome

/-- Whether an arbitrary snapshot passes the players-shape check of
`loadState` (a non-empty array). -/
def playersOKbQ (v : JValQ) : Bool :=
  match jGetQ v "players" with
  | some (.arr ps) => ps.length != 0
  | _ => false

/-- Whether an arbitrary snapshot passes the hole check of `loadState`: a
number in `[0, HOLES_COUNT)` — exactly the source's
`typeof hole === 'number'` plus range, with no integrality test. -/
def holeOKbQ (v : JValQ) : Bool :=
  match jGetQ v "hole" with
  | some (.num q) => decide (0 ≤ q ∧ q < (HOLES_COUNT : ℚ))
  | _ => false

/-- The hole indices `≤ throughHole` at which the player has a score,
written the way the spec describes them (over all 18 holes, skipping
unscored slots). -/
def specScored (player : Player) (throughHole : Nat) : List Nat :=
  (List.range HOLES_COUNT).filter
    (fun i => decide (i ≤ throughHole) && (player.scores.getD i none).isSome)

/-- The running par sum of the spec: par summed only over scored holes at
index `≤ throughHole`. -/
def specParSum (course : Course) (throughHole : Nat) (player : Player) : Int :=
  ((specScored player throughHole).map (fun i => (coursePars course).getD i 0)).sum

/-- The number of scored holes at index `≤ throughHole`. -/
def specScoredCount (player : Player) (throughHole : Nat) : Nat :=
  (specScored player throughHole).length

/-- The par differential exactly as the spec words it: "E" when no hole
has been scored or the total equals the running par sum, "+N" when the
total exceeds it, "-N" when below. -/
def specParDiff (course : Course) (throughHole : Nat) (player : Player) : String :=
  if specScoredCount player throughHole = 0 ∨
      player.total = specParSum course throughHole player then "E"
  else if player.total > specParSum course throughHole player then
    "+" ++ toString (player.total - specParSum course throughHole player)
  else toString (player.total - specParSum course throughHole player)

/-- A player who scored 2 and 3 on the first two holes. -/
def amyTwoThree : Player :=
  { name := "Amy", scores := [some 2, some 3] ++ List.replicate 16 none, total := 5 }

/-- A player who scored 1 and 3 on the first two holes. -/
def amyOneThree : Player :=
  { name := "Amy", scores := [some 1, some 3] ++ List.replicate 16 none, total := 4 }

/-- Insertion-order players A(5), B(5), C(3) of the stability example. -/
def playerA : Player := { name := "A", scores := List.replicate 18 none, total := 5 }

/-- See `playerA`. -/
def playerB : Player := { name := "B", scores := List.replicate 18 none, total := 5 }

/-- See `playerA`. -/
def playerC : Player := { name := "C", scores := List.replicate 18 none, total := 3 }

/-- A player with every hole scored. -/
def amyDone : Player :=
  { name := "Amy", scores := List.replicate 18 (some 2), total := 36 }

/-- A mid-round state: hole 3, every slot of the current hole scored. -/
def stateMid : GameState :=
  { currentCourse := .dragon, players := [amyDone], currentHole := 3, gameStarted := true }

/-- A last-hole state. -/
def stateLast : GameState := { stateMid with currentHole := 17 }

/-- A state whose player has not scored the current hole (hole 3). -/
def stateMissing : GameState :=
  { currentCourse := .dragon, players := [amyTwoThree], currentHole := 3, gameStarted := true }

/-- A round state with one player whose name is the empty string — every
field the round-trip claim constrains is valid. -/
def stateEmptyName : GameState :=
  { currentCourse := .dragon
  , players := [{ name := "", scores := List.replicate 18 none, total := 0 }]
  , currentHole := 0
  , gameStarted := true }

/-- A two-player mid-round state whose totals are consistent with the
scores. -/
def stateRound : GameState :=
  { currentCourse := .knight
  , players := [amyTwoThree, amyDone]
  , currentHole := 5
  , gameStarted := true }

/-- The rational 5/2, i.e. the double 2.5 (written with an explicit
numerator and denominator so that it evaluates in proofs by `decide`;
its denominator 2 shows it is not an integer). -/
def twoPointFive : ℚ := ⟨5, 2, by decide, by decide⟩

/-- A stored snapshot whose hole index is 25. -/
def snapHole25 : JValQ :=
  .obj
    [ ("course", .str "dragon")
    , ("hole", .num 25)
    , ("players", .arr [.obj [("name", .str "Amy"),
        ("scores", .arr (List.replicate 18 .null))]])
    , ("gameStarted", .bool true) ]

/-- An otherwise-valid stored snapshot containing one out-of-range score
(15) and one non-integral score (2.5) beside a valid one (3). -/
def snapScore15 : JValQ :=
  .obj
    [ ("course", .str "dragon")
    , ("hole", .num 2)
    , ("players", .arr [.obj [("name", .str "Amy"),
        ("scores", .arr (.num 15 :: .num 3 :: .num twoPointFive ::
          List.replicate 15 .null))]])
    , ("gameStarted", .bool true) ]

/-- An otherwise-valid stored snapshot whose hole index is the
non-integral number 2.5. -/
def snapHole52 : JValQ :=
  .obj
    [ ("course", .str "dragon")
    , ("hole", .num twoPointFive)
    , ("players", .arr [.obj [("name", .str "Amy"),
        ("scores", .arr (List.replicate 18 .null))]])
    , ("gameStarted", .bool true) ]

/-! ## Theorems -/

/-- C3: for every strokes in [1,11] and par in {2,3,4},
`getScoreDescription` returns exactly one of the seven categories,
determined by checking in order: strokes = 1 is hole-in-one regardless of
par (in particular strokes 1 on par 3, where the eagle condition also
holds); otherwise diff ≤ -2 is eagle, diff = -1 birdie, diff = 0 par,
diff = 1 bogey, diff = 2 double bogey, diff ≥ 3 the generic over-par
label. -/
theorem claim_c3_classify (strokes par : Int)
    (hs : 1 ≤ strokes ∧ strokes ≤ 11) (hp : par = 2 ∨ par = 3 ∨ par = 4) :
    ((getScoreDescription strokes par).cls = "hole-in-one" ↔ strokes = 1) ∧
    ((getScoreDescription strokes par).cls = "eagle" ↔
      strokes ≠ 1 ∧ strokes - par ≤ -2) ∧
    ((getScoreDescription strokes par).cls = "birdie" ↔
      strokes ≠ 1 ∧ strokes - par = -1) ∧
    ((getScoreDescription strokes par).cls = "par" ↔ strokes - par = 0) ∧
    ((getScoreDescription strokes par).cls = "bogey" ↔ strokes - par = 1) ∧
    ((getScoreDescription strokes par).cls = "double-bogey" ↔ strokes - par = 2) ∧
    ((getScoreDescription strokes par).cls = "high-score" ↔ 3 ≤ strokes - par) ∧
    (getScoreDescription strokes par).cls ∈
      ["hole-in-one", "eagle", "birdie", "par", "bogey", "double-bogey",
       "high-score"] := by
  obtain ⟨h1, h2⟩ := hs
  rcases hp with rfl | rfl | rfl <;> interval_cases strokes <;> decide

/-- Witness for C3 at strokes 1, par 3: hole-in-one wins although the
eagle condition `strokes - par ≤ -2` holds as well. -/
theorem claim_c3_classify_witness :
    ((1 : Int) ≤ 1 ∧ (1 : Int) ≤ 11) ∧
    ((3 : Int) = 2 ∨ (3 : Int) = 3 ∨ (3 : Int) = 4) ∧
    (getScoreDescription 1 3).cls = "hole-in-one" ∧ (1 : Int) - 3 ≤ -2 :=
  ⟨by decide, by decide,
   (claim_c3_classify 1 3 (by decide) (by decide)).1.mpr rfl, by decide⟩

/-- C10: the two courses' par arrays are element-wise identical, so every
scoring output to which the course is an input is the same under either
course; `getScoreDescription` and `rank` take no course input at all, so
no scoring output depends on the course choice. -/
theorem claim_c10_course_independence :
    coursePars .dragon = coursePars .knight ∧
    (∀ c c' : Course, coursePars c = coursePars c') ∧
    (∀ (c c' : Course) (hole : Nat) (p : Player),
        getParDifferential c hole p = getParDifferential c' hole p) ∧
    (∀ (c c' : Course) (p : Player), achievementsOf c p = achievementsOf c' p) ∧
    (∀ (c c' : Course) (hole : Nat) (p : Player),
        specParDiff c hole p = specParDiff c' hole p) := by
  refine ⟨rfl, ?_, ?_, ?_, ?_⟩ <;> intro c c' <;> cases c <;> cases c' <;>
    intros <;> rfl

/-- Inserting a player into a list keeps, for each total `t`, the
sequence of players with that total, with the inserted player in front of
those it was inserted before (it skips exactly the players with a
strictly smaller total). -/
theorem orderedInsert_filter_total (p : Player) (t : Int) :
    ∀ l : List Player,
      (l.orderedInsert (fun a b => a.total ≤ b.total) p).filter
          (fun q => decide (q.total = t)) =
        if p.total = t then
          p :: l.filter (fun q => decide (q.total = t))
        else l.filter (fun q => decide (q.total = t))
  | [] => by
    by_cases ht : p.total = t <;> simp [ht]
  | y :: ys => by
    simp only [List.orderedInsert]
    by_cases hc : p.total ≤ y.total
    · rw [if_pos hc]
      by_cases ht : p.total = t <;> by_cases hyt : y.total = t <;>
        simp [List.filter_cons, ht, hyt]
    · rw [if_neg hc]
      rw [List.filter_cons, List.filter_cons, orderedInsert_filter_total p t ys]
      by_cases ht : p.total = t <;> by_cases hyt : y.total = t <;>
        simp [ht, hyt] <;> omega

/-- For each total `t`, ranking preserves the subsequence of players with
total `t` — the formal statement of stability. -/
theorem rank_filter_total (t : Int) :
    ∀ ps : List Player,
      (rank ps).filter (fun q => decide (q.total = t)) =
        ps.filter (fun q => decide (q.total = t))
  | [] => rfl
  | x :: xs => by
    show ((rank xs).orderedInsert (fun a b => a.total ≤ b.total) x).filter _ = _
    rw [orderedInsert_filter_total x t (rank xs), rank_filter_total t xs]
    by_cases ht : x.total = t <;> simp [List.filter_cons, ht]

/-- The ranking is sorted by ascending total. -/
theorem rank_sorted (ps : List Player) :
    List.Sorted (fun a b : Player => a.total ≤ b.total) (rank ps) := by
  haveI : IsTotal Player (fun a b => a.total ≤ b.total) :=
    ⟨fun a b => le_total a.total b.total⟩
  haveI : IsTrans Player (fun a b => a.total ≤ b.total) :=
    ⟨fun _ _ _ h h' => le_trans h h'⟩
  exact List.sorted_insertionSort _ ps

/-- C5: `rank` sorts ascending by total strokes, is a permutation of its
input, and is stable — for every total `t` the players with that total
appear in their original insertion order; in particular
A(5), B(5), C(3) in insertion order rank as [C, A, B]. -/
theorem claim_c5_rank_stable :
    (∀ ps : List Player,
        List.Sorted (fun a b : Player => a.total ≤ b.total) (rank ps) ∧
        (rank ps).Perm ps ∧
        ∀ t : Int,
          (rank ps).filter (fun q => decide (q.total = t)) =
            ps.filter (fun q => decide (q.total = t))) ∧
    rank [playerA, playerB, playerC] = [playerC, playerA, playerB] := by
  refine ⟨fun ps => ⟨rank_sorted ps, List.perm_insertionSort _ ps,
    fun t => rank_filter_total t ps⟩, ?_⟩
  rfl

/-- C9: in play with hole index `h > 0`, the retreat transition only
decrements the hole index (and persists the decremented state): the
course, the started flag, and every player — names, all score slots
including those on the target and later holes, and totals — are exactly
as before; nothing is cleared or re-validated.  From hole 0 it goes back
to setup instead, with the players preserved. -/
theorem claim_c9_retreat (st : AppState) (hplay : st.game.gameStarted = true) :
    (0 < st.game.currentHole →
      popstateRetreat st =
        { game := { st.game with currentHole := st.game.currentHole - 1 }
        , storage :=
            some (saveState { st.game with currentHole := st.game.currentHole - 1 }) } ∧
      (popstateRetreat st).game.players = st.game.players ∧
      (popstateRetreat st).game.currentCourse = st.game.currentCourse ∧
      (popstateRetreat st).game.gameStarted = st.game.gameStarted ∧
      (popstateRetreat st).game.currentHole = st.game.currentHole - 1) ∧
    (st.game.currentHole = 0 →
      popstateRetreat st = goBackToSetup st ∧
      (goBackToSetup st).game.players = st.game.players ∧
      (goBackToSetup st).game.currentCourse = st.game.currentCourse ∧
      (goBackToSetup st).game.gameStarted = false ∧
      (goBackToSetup st).storage = none) := by
  constructor
  · intro hpos
    have h0 : st.game.currentHole ≠ 0 := Nat.pos_iff_ne_zero.mp hpos
    simp [popstateRetreat, hplay, h0]
  · intro h0
    simp [popstateRetreat, goBackToSetup, hplay, h0]

/-- Witness for C9: retreating from hole 3 yields hole 2 with the players
untouched, and retreating from hole 0 leaves play with the players kept
and the stored snapshot cleared. -/
theorem claim_c9_retreat_witness :
    (popstateRetreat { game := stateMid, storage := none }).game.currentHole = 2 ∧
    (popstateRetreat { game := stateMid, storage := none }).game.players =
      stateMid.players ∧
    (popstateRetreat { game := { stateMid with currentHole := 0 }, storage := none }).game.gameStarted = false := by
  have h3 := claim_c9_retreat { game := stateMid, storage := none } rfl
  have h0 := claim_c9_retreat { game := { stateMid with currentHole := 0 }, storage := none } rfl
  obtain ⟨-, -, -, -, hhole⟩ := h3.1 (by decide)
  obtain ⟨heq, -, -, hgs, -⟩ := h0.2 rfl
  exact ⟨hhole, (h3.1 (by decide)).2.1, by rw [heq]; exact hgs⟩

/-- C8: starting a round with an empty input list is rejected with the
user-facing error and no new state; with a non-empty list it creates
exactly one player per input, in order, each with an all-null 18-slot
score array and total 0, keeps the selected course, sets the started
flag, resets the hole index to 0 whatever it was, and persists the fresh
state. -/
theorem claim_c8_startRound (st : AppState) (inputs : List String) :
    (inputs = [] → startGame st inputs = .error "Add at least one player") ∧
    (inputs ≠ [] →
      startGame st inputs =
        .ok { game := startedGame st inputs
            , storage := some (saveState (startedGame st inputs)) } ∧
      (startedGame st inputs).players.length = inputs.length ∧
      (startedGame st inputs).players =
        ((List.range inputs.length).zip inputs).map
          (fun iv => mkStartPlayer iv.1 iv.2) ∧
      (∀ p ∈ (startedGame st inputs).players,
        p.scores = List.replicate HOLES_COUNT none ∧ p.total = 0) ∧
      (startedGame st inputs).gameStarted = true ∧
      (startedGame st inputs).currentHole = 0 ∧
      (startedGame st inputs).currentCourse = st.game.currentCourse) := by
  have hlen : (startedGame st inputs).players.length = inputs.length := by
    simp [startedGame]
  constructor
  · intro h
    subst h
    rfl
  · intro hne
    have hlen0 : inputs.length ≠ 0 := fun h => hne (List.length_eq_zero.mp h)
    refine ⟨?_, hlen, rfl, ?_, rfl, rfl, rfl⟩
    · rw [startGame, if_neg hlen0]
      simp only [hlen]
      rw [if_neg hlen0]
    · intro p hp
      rw [startedGame] at hp
      simp only [List.mem_map] at hp
      obtain ⟨iv, -, rfl⟩ := hp
      exact ⟨rfl, rfl⟩

/-- Witness for C8: the empty list is rejected, and starting with the
single raw name "  Amy " creates exactly one player, on hole 0, with the
round started. -/
theorem claim_c8_startRound_witness :
    startGame { game := stateMid, storage := none } [] =
      .error "Add at least one player" ∧
    startGame { game := stateMid, storage := none } ["  Amy "] =
      .ok { game := startedGame { game := stateMid, storage := none } ["  Amy "]
          , storage := some (saveState
              (startedGame { game := stateMid, storage := none } ["  Amy "])) } ∧
    (startedGame { game := stateMid, storage := none } ["  Amy "]).players.length = 1 ∧
    (startedGame { game := stateMid, storage := none } ["  Amy "]).currentHole = 0 ∧
    (startedGame { game := stateMid, storage := none } ["  Amy "]).gameStarted = true := by
  have h := (claim_c8_startRound { game := stateMid, storage := none } ["  Amy "]).2
    (by decide)
  exact ⟨(claim_c8_startRound { game := stateMid, storage := none } []).1 rfl,
    h.1, h.2.1, h.2.2.2.2.2.1, h.2.2.2.2.1⟩

/-- C1: in play on hole `h` (with the 18-slot score arrays the program
maintains), advancing is rejected with "Enter scores for all players"
while some player's slot `h` is null, and the state is unchanged; when
every slot `h` is filled, `h < 17` advances to hole `h+1` and persists,
and `h = 17` leaves play for the summary and clears the stored snapshot —
a finished round is not resumable. -/
theorem claim_c1_advance (st : AppState)
    (hplay : st.game.gameStarted = true)
    (hlen : ∀ p ∈ st.game.players, p.scores.length = HOLES_COUNT)
    (hhole : st.game.currentHole < HOLES_COUNT) :
    ((∃ p ∈ st.game.players, p.scores.getD st.game.currentHole none = none) →
      nextHole st = .error "Enter scores for all players") ∧
    ((∀ p ∈ st.game.players, p.scores.getD st.game.currentHole none ≠ none) →
      (st.game.currentHole < 17 →
        nextHole st =
          .ok { game := { st.game with currentHole := st.game.currentHole + 1 }
              , storage := some (saveState
                  { st.game with currentHole := st.game.currentHole + 1 }) }) ∧
      (st.game.currentHole = 17 →
        nextHole st =
          .ok { game := { st.game with gameStarted := false }, storage := none } ∧
        (endGame st).storage = none)) := by
  constructor
  · intro ⟨p, hp, hnone⟩
    have hany : (st.game.players.any fun p =>
        decide (st.game.currentHole < p.scores.length) &&
          (p.scores.getD st.game.currentHole none).isNone) = true := by
      refine List.any_eq_true.mpr ⟨p, hp, ?_⟩
      rw [hlen p hp, hnone]
      simp [hhole]
    simp only [nextHole]
    rw [hany]
    simp
  · intro hall
    have hany : (st.game.players.any fun p =>
        decide (st.game.currentHole < p.scores.length) &&
          (p.scores.getD st.game.currentHole none).isNone) = false := by
      rw [List.any_eq_false]
      intro p hp
      simp only [Bool.and_eq_true, decide_eq_true_eq, Option.isNone_iff_eq_none, not_and]
      intro _
      exact hall p hp
    constructor
    · intro hlt
      have hlt' : st.game.currentHole < HOLES_COUNT - 1 := hlt
      simp only [nextHole]
      rw [hany]
      simp only [Bool.false_eq_true, if_false]
      rw [if_pos hlt']
    · intro h17
      have hnlt : ¬ st.game.currentHole < HOLES_COUNT - 1 := by
        rw [h17]; decide
      refine ⟨?_, rfl⟩
      simp only [nextHole]
      rw [hany]
      simp only [Bool.false_eq_true, if_false]
      rw [if_neg hnlt]
      rfl

/-- Witness for C1: with the current-hole slot missing, advancing from
hole 3 is rejected; with all slots filled it advances 3 to 4 and
persists; on hole 17 it ends the round and the stored snapshot is gone. -/
theorem claim_c1_advance_witness :
    nextHole { game := stateMissing, storage := none } =
      .error "Enter scores for all players" ∧
    nextHole { game := stateMid, storage := none } =
      .ok { game := { stateMid with currentHole := 4 }
          , storage := some (saveState { stateMid with currentHole := 4 }) } ∧
    nextHole { game := stateLast, storage := some (saveState stateLast) } =
      .ok { game := { stateLast with gameStarted := false }, storage := none } := by
  refine ⟨?_, ?_, ?_⟩
  · exact (claim_c1_advance { game := stateMissing, storage := none } rfl
      (by decide) (by decide)).1 ⟨amyTwoThree, by decide, by decide⟩
  · exact ((claim_c1_advance { game := stateMid, storage := none } rfl
      (by decide) (by decide)).2 (by decide)).1 (by decide)
  · exact (((claim_c1_advance { game := stateLast, storage := some (saveState stateLast) }
      rfl (by decide) (by decide)).2 (by decide)).2 rfl).1

/-- Updating with `updateAt` leaves every other position unchanged. -/
theorem updateAt_getElem?_ne {α : Type} (f : α → α) :
    ∀ (n : Nat) (l : List α) (m : Nat), n ≠ m → (updateAt n f l)[m]? = l[m]?
  | _, [], _, _ => by simp [updateAt]
  | 0, x :: xs, 0, h => absurd rfl h
  | 0, x :: xs, m + 1, _ => by simp [updateAt]
  | n + 1, x :: xs, 0, _ => by simp [updateAt]
  | n + 1, x :: xs, m + 1, h => by
    have := updateAt_getElem?_ne f n xs m (fun hh => h (by rw [hh]))
    simp [updateAt, this]

/-- Updating with `updateAt` applies `f` at the updated position. -/
theorem updateAt_getElem?_eq {α : Type} (f : α → α) :
    ∀ (n : Nat) (l : List α) (x : α),
      l[n]? = some x → (updateAt n f l)[n]? = some (f x)
  | _, [], _, h => by simp at h
  | 0, y :: ys, x, h => by
    simp only [List.getElem?_cons_zero, Option.some.injEq] at h
    subst h
    simp [updateAt]
  | n + 1, y :: ys, x, h => by
    simp only [List.getElem?_cons_succ] at h
    have := updateAt_getElem?_eq f n ys x h
    simp [updateAt, this]

/-- C2: while a round is in play, `updateScore` rejects — leaving every
player's scores and totals untouched — when the player index is out of
bounds or the strokes are outside [1, 11]; on success it persists a state
that differs from the old one only in the indexed player, whose slot at
the current (unchanged) hole becomes the strokes and whose total becomes
the sum of the non-null slots; all other slots and players are unchanged. -/
theorem claim_c2_recordScore (st : AppState) (idx strokes : Int)
    (hplay : st.game.gameStarted = true) :
    (¬ (0 ≤ idx ∧ idx < (st.game.players.length : Int)) →
      updateScore st idx strokes = .error "Invalid player index") ∧
    ((0 ≤ idx ∧ idx < (st.game.players.length : Int)) →
      ¬ (1 ≤ strokes ∧ strokes ≤ 11) →
      updateScore st idx strokes = .error "Invalid score value") ∧
    ((0 ≤ idx ∧ idx < (st.game.players.length : Int)) →
      (1 ≤ strokes ∧ strokes ≤ 11) →
      updateScore st idx strokes =
        .ok { game := applyScore st.game idx.toNat strokes
            , storage := some (saveState (applyScore st.game idx.toNat strokes)) } ∧
      (applyScore st.game idx.toNat strokes).currentHole = st.game.currentHole ∧
      (applyScore st.game idx.toNat strokes).currentCourse = st.game.currentCourse ∧
      (applyScore st.game idx.toNat strokes).gameStarted = st.game.gameStarted ∧
      (∀ j : Nat, j ≠ idx.toNat →
        (applyScore st.game idx.toNat strokes).players[j]? =
          st.game.players[j]?) ∧
      (∀ p, st.game.players[idx.toNat]? = some p →
        (applyScore st.game idx.toNat strokes).players[idx.toNat]? =
          some { p with
                 scores := p.scores.set st.game.currentHole (some strokes)
               , total := recomputeTotal
                   (p.scores.set st.game.currentHole (some strokes)) } ∧
        (∀ k : Nat, k ≠ st.game.currentHole →
          (p.scores.set st.game.currentHole (some strokes))[k]? =
            p.scores[k]?))) := by
  refine ⟨?_, ?_, ?_⟩
  · intro hinv
    have hb : ¬ (isValidPlayerIndex st.game.players idx = true) := by
      simp only [isValidPlayerIndex, Bool.and_eq_true, decide_eq_true_eq]
      exact fun h => hinv h
    simp only [updateScore]
    rw [if_pos hb]
  · intro hv hbad
    have hb : isValidPlayerIndex st.game.players idx = true := by
      simp only [isValidPlayerIndex, Bool.and_eq_true, decide_eq_true_eq]
      exact hv
    have hs : ¬ (isValidScore strokes = true) := by
      simp only [isValidScore, Bool.and_eq_true, decide_eq_true_eq]
      exact fun h => hbad h
    simp only [updateScore]
    rw [if_neg (by simp [hb]), if_pos hs]
  · intro hv hs
    have hb : isValidPlayerIndex st.game.players idx = true := by
      simp only [isValidPlayerIndex, Bool.and_eq_true, decide_eq_true_eq]
      exact hv
    have hsb : isValidScore strokes = true := by
      simp only [isValidScore, Bool.and_eq_true, decide_eq_true_eq]
      exact hs
    refine ⟨?_, rfl, rfl, rfl, ?_, ?_⟩
    · simp only [updateScore]
      rw [if_neg (by simp [hb]), if_neg (by simp [hsb])]
    · intro j hj
      exact updateAt_getElem?_ne _ idx.toNat st.game.players j (fun hh => hj hh.symm)
    · intro p hp
      exact ⟨updateAt_getElem?_eq _ idx.toNat st.game.players p hp,
        fun k hk => List.getElem?_set_ne (fun hh => hk hh.symm)⟩

/-- Witness for C2: in the one-player mid-round state, player index 1 and
strokes 0 are rejected, and recording 4 for player 0 on hole 3 succeeds
with only that slot changed and the total recomputed. -/
theorem claim_c2_recordScore_witness :
    updateScore { game := stateMissing, storage := none } 1 4 =
      .error "Invalid player index" ∧
    updateScore { game := stateMissing, storage := none } 0 0 =
      .error "Invalid score value" ∧
    updateScore { game := stateMissing, storage := none } 0 4 =
      .ok { game := applyScore stateMissing 0 4
          , storage := some (saveState (applyScore stateMissing 0 4)) } ∧
    (applyScore stateMissing 0 4).currentHole = 3 := by
  have h := claim_c2_recordScore { game := stateMissing, storage := none } 0 4 rfl
  refine ⟨?_, ?_, ?_, ?_⟩
  · exact (claim_c2_recordScore { game := stateMissing, storage := none } 1 4 rfl).1
      (by decide)
  · exact (claim_c2_recordScore { game := stateMissing, storage := none } 0 0
      rfl).2.1 (by decide) (by decide)
  · exact (h.2.2 (by decide) (by decide)).1
  · exact (h.2.2 (by decide) (by decide)).2.1

/-- Restricting `List.range n` by `i ≤ h` is `List.range (h + 1)` when
`h + 1 ≤ n`, under any further filter. -/
theorem filter_range_le (f : Nat → Bool) (h : Nat) :
    ∀ n : Nat, h + 1 ≤ n →
      (List.range n).filter (fun i => decide (i ≤ h) && f i) =
        (List.range (h + 1)).filter f
  | 0, hn => absurd hn (by omega)
  | n + 1, hn => by
    by_cases hc : h + 1 ≤ n
    · rw [List.range_succ, List.filter_append, filter_range_le f h n hc]
      have hnh : ¬ (n ≤ h) := by omega
      simp [hnh]
    · have hn' : n = h := by omega
      subst hn'
      rw [List.range_succ, List.filter_append, List.filter_append]
      have h1 : List.filter (fun i => decide (i ≤ n) && f i) (List.range n) =
          List.filter f (List.range n) :=
        List.filter_congr fun i hi => by
          simp [Nat.le_of_lt (List.mem_range.mp hi)]
      have h2 : List.filter (fun i => decide (i ≤ n) && f i) [n] =
          List.filter f [n] := by
        simp [List.filter_cons]
      rw [h1, h2]

/-- The loop accumulator of `getParDifferential` is the par sum and the
count over the scored indices below the bound. -/
theorem parTotalLoop_eq (player : Player) (pars : List Int) :
    ∀ n : Nat,
      parTotalLoop player pars n =
        ((((List.range n).filter
              (fun i => (player.scores.getD i none).isSome)).map
            (fun i => pars.getD i 0)).sum,
         ((List.range n).filter
            (fun i => (player.scores.getD i none).isSome)).length)
  | 0 => rfl
  | n + 1 => by
    simp only [parTotalLoop, parTotalLoop_eq player pars n]
    rw [List.range_succ, List.filter_append, List.map_append, List.sum_append,
      List.length_append]
    by_cases hc : (player.scores[n]?.getD none).isSome = true
    · simp [hc]
    · simp [hc]

/-- A string starting with a plus sign is not "E". -/
theorem plus_append_ne_E (s : String) : ("+" ++ s) ≠ "E" := by
  intro h
  have h2 := congrArg String.data h
  rw [String.data_append] at h2
  rw [show ("+" : String).data = ['+'] from rfl,
    show ("E" : String).data = ['E'] from rfl] at h2
  simp at h2

/-- The decimal rendering of a negative integer is not "E". -/
theorem neg_toString_ne_E (d : Int) (hd : d < 0) : toString d ≠ "E" := by
  obtain ⟨m, rfl⟩ : ∃ m : Nat, d = Int.negSucc m := by
    cases d with
    | ofNat k => exact absurd hd (by exact Int.not_lt.mpr (Int.ofNat_nonneg k))
    | negSucc m => exact ⟨m, rfl⟩
  intro h
  have h2 := congrArg String.data h
  rw [show toString (Int.negSucc m) = "-" ++ Nat.repr (m + 1) from rfl,
    String.data_append,
    show ("-" : String).data = ['-'] from rfl,
    show ("E" : String).data = ['E'] from rfl] at h2
  simp at h2

/-- C4: for every course, player and through-hole index in [0, 17],
`getParDifferential` equals the spec-side `specParDiff` — par is summed
only over the scored holes at index ≤ the through-hole, unscored holes
contribute nothing, and the result is "E" exactly when no hole is scored
or the total equals the running par sum, "+N" for a total N above it and
"-N" for N below (the function is total, so an unscored current hole
never throws). -/
theorem claim_c4_parDifferential (course : Course) (h : Nat) (player : Player)
    (hh : h ≤ 17) :
    getParDifferential course h player = specParDiff course h player ∧
    (getParDifferential course h player = "E" ↔
      (specScoredCount player h = 0 ∨
        player.total = specParSum course h player)) := by
  have hlen : (coursePars course).length = HOLES_COUNT := by cases course <;> rfl
  have hmin : min (h + 1) (coursePars course).length = h + 1 := by
    rw [hlen]
    exact Nat.min_eq_left (show h + 1 ≤ 18 by omega)
  have hspec : specScored player h =
      (List.range (h + 1)).filter (fun i => (player.scores.getD i none).isSome) :=
    filter_range_le _ h HOLES_COUNT (show h + 1 ≤ 18 by omega)
  have hget : getParDifferential course h player =
      (if specScoredCount player h = 0 then "E"
       else if player.total - specParSum course h player = 0 then "E"
       else if player.total - specParSum course h player > 0 then
         "+" ++ toString (player.total - specParSum course h player)
       else toString (player.total - specParSum course h player)) := by
    simp only [getParDifferential, hmin,
      parTotalLoop_eq player (coursePars course) (h + 1),
      specScoredCount, specParSum, hspec]
  constructor
  · rw [hget, specParDiff]
    by_cases hc0 : specScoredCount player h = 0
    · rw [if_pos hc0, if_pos (Or.inl hc0)]
    · by_cases hceq : player.total = specParSum course h player
      · have hsub : player.total - specParSum course h player = 0 := by omega
        rw [if_neg hc0, if_pos hsub, if_pos (Or.inr hceq)]
      · have hsub : ¬ (player.total - specParSum course h player = 0) := by
          intro hz
          exact hceq (by omega)
        have hnor : ¬ (specScoredCount player h = 0 ∨
            player.total = specParSum course h player) := by
          rintro (h1 | h2)
          exacts [hc0 h1, hceq h2]
        by_cases hgt : player.total > specParSum course h player
        · have hgt' : player.total - specParSum course h player > 0 := by omega
          rw [if_neg hc0, if_neg hsub, if_pos hgt', if_neg hnor, if_pos hgt]
        · have hgt' : ¬ (player.total - specParSum course h player > 0) := by omega
          rw [if_neg hc0, if_neg hsub, if_neg hgt', if_neg hnor, if_neg hgt]
  · rw [hget]
    by_cases hc0 : specScoredCount player h = 0
    · rw [if_pos hc0]
      simp [hc0]
    · by_cases hceq : player.total = specParSum course h player
      · have hsub : player.total - specParSum course h player = 0 := by omega
        rw [if_neg hc0, if_pos hsub]
        simp [hceq]
      · have hsub : ¬ (player.total - specParSum course h player = 0) := by
          intro hz
          exact hceq (by omega)
        by_cases hgt : player.total - specParSum course h player > 0
        · rw [if_neg hc0, if_neg hsub, if_pos hgt]
          constructor
          · intro hE
            exact absurd hE (plus_append_ne_E _)
          · rintro (h1 | h2)
            exacts [absurd h1 hc0, absurd h2 hceq]
        · have hlt : player.total - specParSum course h player < 0 := by omega
          rw [if_neg hc0, if_neg hsub, if_neg hgt]
          constructor
          · intro hE
            exact absurd hE (neg_toString_ne_E _ hlt)
          · rintro (h1 | h2)
            exacts [absurd h1 hc0, absurd h2 hceq]

/-- Witness for C4: through hole index 1, a player who scored 2 and 3 on
pars 2 and 3 is at "E", and one who scored 1 and 3 is at "-1"; a player
with no scores is at "E". -/
theorem claim_c4_parDifferential_witness :
    getParDifferential .dragon 1 amyTwoThree = specParDiff .dragon 1 amyTwoThree ∧
    getParDifferential .dragon 1 amyTwoThree = "E" ∧
    getParDifferential .dragon 1 amyOneThree = "-1" ∧
    (getParDifferential .dragon 3 playerC = "E" ↔
      (specScoredCount playerC 3 = 0 ∨
        playerC.total = specParSum .dragon 3 playerC)) := by
  refine ⟨(claim_c4_parDifferential .dragon 1 amyTwoThree (by decide)).1, ?_, ?_,
    (claim_c4_parDifferential .dragon 3 playerC (by decide)).2⟩
  · rw [(claim_c4_parDifferential .dragon 1 amyTwoThree (by decide)).1]
    decide
  · rw [(claim_c4_parDifferential .dragon 1 amyOneThree (by decide)).1]
    decide

/-- Slicing with `slice(0, 20)` leaves a string of at most 20 characters unchanged. -/
theorem string_take_of_length_le (s : String) (n : Nat) (h : s.length ≤ n) :
    s.take n = s := by
  apply String.ext
  rw [String.data_take]
  exact List.take_of_length_le h

/-- Loading a saved player restores the name and scores verbatim and
recomputes the total, provided the name is non-empty with at most 20
characters, the score array has its 18 slots, and every slot is valid. -/
theorem loadPlayer_savePlayer (p : Player)
    (hlen : p.scores.length = HOLES_COUNT)
    (hv : ∀ s ∈ p.scores, validSlot s = true)
    (hname : p.name ≠ "") (hname20 : p.name.length ≤ 20) :
    loadPlayer (savePlayerJ p) = { p with total := recomputeTotal p.scores } := by
  have hgname : jGet (savePlayerJ p) "name" = some (.str p.name) := rfl
  have hgscores : jGet (savePlayerJ p) "scores" =
      some (.arr (p.scores.map saveScoreJ)) := rfl
  have hslots : ∀ s ∈ p.scores, loadScoreSlot (saveScoreJ s) = s := by
    intro s hs
    have hv' := hv s hs
    cases s with
    | none => rfl
    | some n =>
      simp only [validSlot] at hv'
      simp [saveScoreJ, loadScoreSlot, hv']
  have hscores : loadScores (jGet (savePlayerJ p) "scores") = p.scores := by
    rw [hgscores]
    simp only [loadScores, List.length_map, hlen, if_pos]
    rw [List.map_map]
    calc p.scores.map (loadScoreSlot ∘ saveScoreJ)
        = p.scores.map id := List.map_congr_left fun a ha => hslots a ha
      _ = p.scores := List.map_id p.scores
  have htruthy : jTruthy (.str p.name) = true := by
    simp [jTruthy, hname]
  simp only [loadPlayer, hgname, hgscores, htruthy, if_true, if_pos]
  rw [show jToString (.str p.name) = p.name from rfl,
    string_take_of_length_le p.name 20 hname20]
  rw [hgscores] at hscores
  rw [hscores]

/-- C6 counterexample: `stateEmptyName` meets every condition the claim
places on a round state — recognized course, one player (between 1 and
6), an 18-slot score array with every slot null or in [1, 11], hole
index in [0, 17] — yet loading its saved snapshot renames the player from
"" to "Player", so the round trip does not reproduce the state. -/
theorem claim_c6_roundtrip_counterexample :
    (1 ≤ stateEmptyName.players.length ∧ stateEmptyName.players.length ≤ 6) ∧
    (∀ p ∈ stateEmptyName.players,
      p.scores.length = HOLES_COUNT ∧ ∀ s ∈ p.scores, validSlot s = true) ∧
    stateEmptyName.currentHole ≤ 17 ∧
    (loadState (saveState stateEmptyName)).map
      (fun g => g.players.map Player.name) = some ["Player"] ∧
    stateEmptyName.players.map Player.name = [""] ∧
    loadState (saveState stateEmptyName) ≠ some stateEmptyName := by
  decide

/-- C6 (amended): for a round state with a recognized course, 1 to 6
players, 18-slot score arrays with every slot null or in [1, 11], hole
index in [0, 17], and — as the counterexample forces — each player's name
non-empty and at most 20 characters, loading the saved snapshot
reproduces the state exactly up to recomputing each total as the sum of
the non-null slots; when the totals were already consistent the state is
reproduced verbatim. -/
theorem claim_c6_roundtrip (st : GameState)
    (hne : st.players ≠ [])
    (hcap : st.players.length ≤ MAX_PLAYERS)
    (hp : ∀ p ∈ st.players,
      p.scores.length = HOLES_COUNT ∧ (∀ s ∈ p.scores, validSlot s = true) ∧
      p.name ≠ "" ∧ p.name.length ≤ 20)
    (hh : st.currentHole ≤ 17) :
    loadState (saveState st) =
      some { st with players :=
        st.players.map (fun p => { p with total := recomputeTotal p.scores }) } ∧
    ((∀ p ∈ st.players, p.total = recomputeTotal p.scores) →
      loadState (saveState st) = some st) := by
  have hcourse : jGet (saveState st) "course" =
      some (.str (courseKey st.currentCourse)) := rfl
  have hplayers : jGet (saveState st) "players" =
      some (.arr (st.players.map savePlayerJ)) := rfl
  have hholeg : jGet (saveState st) "hole" = some (.num st.currentHole) := rfl
  have hgsg : jGet (saveState st) "gameStarted" = some (.bool st.gameStarted) := rfl
  have hpc : parseCourse (some (.str (courseKey st.currentCourse))) =
      some st.currentCourse := by
    cases st.currentCourse <;> rfl
  have hlen0 : ¬ ((st.players.map savePlayerJ).length = 0) := by
    rw [List.length_map]
    intro hz
    exact hne (List.length_eq_zero.mp hz)
  have hrange : 0 ≤ (st.currentHole : Int) ∧
      (st.currentHole : Int) < (HOLES_COUNT : Int) := by
    constructor
    · exact Int.natCast_nonneg st.currentHole
    · exact_mod_cast show st.currentHole < 18 by omega
  have hmap : (st.players.map savePlayerJ).map loadPlayer =
      st.players.map (fun p => { p with total := recomputeTotal p.scores }) := by
    rw [List.map_map]
    refine List.map_congr_left fun p hpmem => ?_
    obtain ⟨h1, h2, h3, h4⟩ := hp p hpmem
    exact loadPlayer_savePlayer p h1 h2 h3 h4
  have hmain : loadState (saveState st) =
      some { st with players :=
        st.players.map (fun p => { p with total := recomputeTotal p.scores }) } := by
    simp only [loadState, hcourse, hpc, hplayers, hholeg, hgsg]
    rw [if_neg hlen0, if_pos hrange, hmap]
    simp [jTruthyOpt, jTruthy, Int.toNat_natCast]
  refine ⟨hmain, fun htot => ?_⟩
  rw [hmain]
  have : st.players.map (fun p => { p with total := recomputeTotal p.scores }) =
      st.players := by
    refine (List.map_congr_left fun p hpmem => ?_).trans (List.map_id st.players)
    have := htot p hpmem
    cases p
    simp_all
  rw [this]

/-- Witness for C6: a two-player mid-round state with consistent totals
round-trips verbatim through save and load. -/
theorem claim_c6_roundtrip_witness :
    loadState (saveState stateRound) = some stateRound :=
  (claim_c6_roundtrip stateRound (by decide) (by decide) (by decide)
    (by decide)).2 (by decide)

/-- Every loaded score array has the 18 slots. -/
theorem loadScoresQ_length (w : Option JValQ) :
    (loadScoresQ w).length = HOLES_COUNT := by
  rcases w with _ | x
  · simp [loadScoresQ]
  · cases x with
    | arr ss =>
      rw [loadScoresQ]
      by_cases h : ss.length = HOLES_COUNT
      · rw [if_pos h, List.length_map]
        exact h
      · rw [if_neg h]
        simp
    | null => simp [loadScoresQ]
    | bool b => simp [loadScoresQ]
    | num q => simp [loadScoresQ]
    | str s => simp [loadScoresQ]
    | obj fields => simp [loadScoresQ]

/-- The per-slot validation never lets an invalid value through: a kept
slot is an integer in [1, 11]. -/
theorem validSlot_loadScoreSlotQ (x : JValQ) :
    validSlot (loadScoreSlotQ x) = true := by
  cases x with
  | num q =>
    rw [loadScoreSlotQ]
    by_cases h : isValidScoreQ q = true
    · rw [if_pos h]
      simp only [isValidScoreQ, Bool.and_eq_true, decide_eq_true_eq] at h
      obtain ⟨⟨hden, h1⟩, h11⟩ := h
      have hq : (q.num : ℚ) = q := by
        rw [← Rat.num_div_den q, hden]
        norm_num
      simp only [validSlot, isValidScore, Bool.and_eq_true, decide_eq_true_eq]
      constructor
      · exact_mod_cast hq ▸ h1
      · exact_mod_cast hq ▸ h11
    · rw [if_neg h]
      rfl
  | null => rfl
  | bool b => rfl
  | str s => rfl
  | arr xs => rfl
  | obj fields => rfl

/-- Every slot of a loaded score array is null or an integer in
[1, 11]. -/
theorem loadScoresQ_valid (w : Option JValQ) :
    ∀ s ∈ loadScoresQ w, validSlot s = true := by
  intro s hs
  rcases w with _ | x
  · rw [List.eq_of_mem_replicate hs]
    rfl
  · cases x with
    | arr ss =>
      rw [loadScoresQ] at hs
      by_cases h : ss.length = HOLES_COUNT
      · rw [if_pos h] at hs
        obtain ⟨y, -, rfl⟩ := List.mem_map.mp hs
        exact validSlot_loadScoreSlotQ y
      · rw [if_neg h] at hs
        rw [List.eq_of_mem_replicate hs]
        rfl
    | null =>
      rw [List.eq_of_mem_replicate hs]
      rfl
    | bool b =>
      rw [List.eq_of_mem_replicate hs]
      rfl
    | num q =>
      rw [List.eq_of_mem_replicate hs]
      rfl
    | str s2 =>
      rw [List.eq_of_mem_replicate hs]
      rfl
    | obj fields =>
      rw [List.eq_of_mem_replicate hs]
      rfl

/-- The shape of the amended C7 statement in every branch where
validation fails: the load is `none` and the combined check is false. -/
theorem loadStateQ_none_parts (v : JValQ)
    (hload : loadStateQ v = none)
    (hbad : (courseOKbQ v && playersOKbQ v && holeOKbQ v) = false) :
    (courseOKbQ v = false → loadStateQ v = none) ∧
    (playersOKbQ v = false → loadStateQ v = none) ∧
    (holeOKbQ v = false → loadStateQ v = none) ∧
    ((courseOKbQ v && playersOKbQ v && holeOKbQ v) = true →
      ∃ g, loadStateQ v = some g) ∧
    (∀ q, jGetQ v "hole" = some (.num q) →
      ∀ g, loadStateQ v = some g → g.currentHole = q) ∧
    (∀ g, loadStateQ v = some g →
      (∀ ps, jGetQ v "players" = some (.arr ps) →
        g.players = ps.map loadPlayerQ) ∧
      ∀ p ∈ g.players,
        p.total = recomputeTotal p.scores ∧
        p.scores.length = HOLES_COUNT ∧
        ∀ s ∈ p.scores, validSlot s = true) := by
  refine ⟨fun _ => hload, fun _ => hload, fun _ => hload, ?_, ?_, ?_⟩
  · intro hall
    rw [hall] at hbad
    exact absurd hbad (by simp)
  · intro q _ g hg
    rw [hload] at hg
    exact absurd hg (by simp)
  · intro g hg
    rw [hload] at hg
    exact absurd hg (by simp)

/-- C7 counterexample: the stored snapshot `snapHole52` is valid in every
respect except that its hole index is the non-integral number 2.5 (the
rational 5/2, denominator 2) — not an integer in [0, 17], so the claim
says it is discarded wholesale.  The source check
`typeof hole === 'number' && hole >= 0 && hole < HOLES_COUNT`
(line 2184) tests no integrality, so the snapshot is kept and the loaded
state resumes at the fractional hole index 2.5. -/
theorem claim_c7_load_validation_counterexample :
    twoPointFive = 5 / 2 ∧
    twoPointFive.den = 2 ∧
    jGetQ snapHole52 "hole" = some (.num twoPointFive) ∧
    (loadStateQ snapHole52).isSome = true ∧
    (loadStateQ snapHole52).map (fun g => g.currentHole) =
      some twoPointFive := by
  refine ⟨?_, by decide, rfl, by decide, by decide⟩
  rw [show (5 : ℚ) / 2 = ((5 : ℚ) / (2 : ℚ)) from rfl,
    show twoPointFive = ((twoPointFive.num : ℚ) / (twoPointFive.den : ℚ)) from
      (Rat.num_div_den twoPointFive).symm]
  norm_num [twoPointFive]

/-- C7 (amended): `loadState` discards an arbitrary snapshot wholesale
when the course is not recognized, when `players` is not a non-empty
array, or when the hole index is not a number in [0, 18) — integrality of
the hole is not checked, so a non-integral in-range hole such as 2.5 is
accepted and kept verbatim as the current hole; a snapshot passing those
three checks is kept — its players are exactly the individually validated
ones, so a score outside the integers in [1, 11] is coerced to null while
the rest survives — and every loaded player's total is recomputed from
its validated scores, never read from storage. -/
theorem claim_c7_load_validation (v : JValQ) :
    (courseOKbQ v = false → loadStateQ v = none) ∧
    (playersOKbQ v = false → loadStateQ v = none) ∧
    (holeOKbQ v = false → loadStateQ v = none) ∧
    ((courseOKbQ v && playersOKbQ v && holeOKbQ v) = true →
      ∃ g, loadStateQ v = some g) ∧
    (∀ q, jGetQ v "hole" = some (.num q) →
      ∀ g, loadStateQ v = some g → g.currentHole = q) ∧
    (∀ g, loadStateQ v = some g →
      (∀ ps, jGetQ v "players" = some (.arr ps) →
        g.players = ps.map loadPlayerQ) ∧
      ∀ p ∈ g.players,
        p.total = recomputeTotal p.scores ∧
        p.scores.length = HOLES_COUNT ∧
        ∀ s ∈ p.scores, validSlot s = true) := by
  have hcsplit : parseCourseQ (jGetQ v "course") = none ∨
      ∃ c, parseCourseQ (jGetQ v "course") = some c := by
    cases parseCourseQ (jGetQ v "course") <;> simp
  rcases hcsplit with hpc | ⟨course, hpc⟩
  · exact loadStateQ_none_parts v (by simp [loadStateQ, hpc])
      (by simp [courseOKbQ, hpc])
  · have hcb : courseOKbQ v = true := by simp [courseOKbQ, hpc]
    have hpsplit : jGetQ v "players" = none ∨
        ∃ w, jGetQ v "players" = some w := by
      cases jGetQ v "players" <;> simp
    rcases hpsplit with hj | ⟨w, hj⟩
    · exact loadStateQ_none_parts v (by simp [loadStateQ, hpc, hj])
        (by simp [playersOKbQ, hj])
    · cases w with
      | arr ps =>
        by_cases hempty : ps.length = 0
        · exact loadStateQ_none_parts v (by simp [loadStateQ, hpc, hj, hempty])
            (by simp [playersOKbQ, hj, hempty])
        · have hpb : playersOKbQ v = true := by simp [playersOKbQ, hj, hempty]
          have hhsplit : jGetQ v "hole" = none ∨
              ∃ u, jGetQ v "hole" = some u := by
            cases jGetQ v "hole" <;> simp
          rcases hhsplit with hh | ⟨u, hh⟩
          · exact loadStateQ_none_parts v
              (by simp [loadStateQ, hpc, hj, hempty, hh]) (by simp [holeOKbQ, hh])
          · cases u with
            | num hq =>
              by_cases hr : 0 ≤ hq ∧ hq < (HOLES_COUNT : ℚ)
              · have hload : loadStateQ v =
                    some { currentCourse := course
                         , players := ps.map loadPlayerQ
                         , currentHole := hq
                         , gameStarted := jTruthyOptQ (jGetQ v "gameStarted") } := by
                  simp only [loadStateQ, hpc, hj, hh]
                  rw [if_neg hempty, if_pos hr]
                refine ⟨?_, ?_, ?_, fun _ => ⟨_, hload⟩, ?_, ?_⟩
                · intro hc
                  rw [hcb] at hc
                  exact absurd hc (by simp)
                · intro hc
                  rw [hpb] at hc
                  exact absurd hc (by simp)
                · intro hc
                  have hhb : holeOKbQ v = true := by simp [holeOKbQ, hh, hr]
                  rw [hhb] at hc
                  exact absurd hc (by simp)
                · intro q hq2 g hg
                  rw [hh] at hq2
                  obtain rfl : hq = q := JValQ.num.inj (Option.some.inj hq2)
                  rw [hload] at hg
                  obtain rfl := Option.some.inj hg
                  rfl
                · intro g hg
                  rw [hload] at hg
                  obtain rfl := Option.some.inj hg
                  constructor
                  · intro ps2 hps2
                    rw [hj] at hps2
                    obtain rfl : ps = ps2 := JValQ.arr.inj (Option.some.inj hps2)
                    rfl
                  · intro p hpmem
                    obtain ⟨q, -, rfl⟩ := List.mem_map.mp hpmem
                    exact ⟨rfl, loadScoresQ_length _, loadScoresQ_valid _⟩
              · exact loadStateQ_none_parts v
                  (by
                    simp only [loadStateQ, hpc, hj, hh]
                    rw [if_neg hempty, if_neg hr])
                  (by simp [holeOKbQ, hh, hr])
            | null =>
              exact loadStateQ_none_parts v
                (by simp [loadStateQ, hpc, hj, hempty, hh]) (by simp [holeOKbQ, hh])
            | bool b =>
              exact loadStateQ_none_parts v
                (by simp [loadStateQ, hpc, hj, hempty, hh]) (by simp [holeOKbQ, hh])
            | str s2 =>
              exact loadStateQ_none_parts v
                (by simp [loadStateQ, hpc, hj, hempty, hh]) (by simp [holeOKbQ, hh])
            | arr xs =>
              exact loadStateQ_none_parts v
                (by simp [loadStateQ, hpc, hj, hempty, hh]) (by simp [holeOKbQ, hh])
            | obj fields =>
              exact loadStateQ_none_parts v
                (by simp [loadStateQ, hpc, hj, hempty, hh]) (by simp [holeOKbQ, hh])
      | null =>
        exact loadStateQ_none_parts v
          (by simp [loadStateQ, hpc, hj]) (by simp [playersOKbQ, hj])
      | bool b =>
        exact loadStateQ_none_parts v
          (by simp [loadStateQ, hpc, hj]) (by simp [playersOKbQ, hj])
      | num q =>
        exact loadStateQ_none_parts v
          (by simp [loadStateQ, hpc, hj]) (by simp [playersOKbQ, hj])
      | str s2 =>
        exact loadStateQ_none_parts v
          (by simp [loadStateQ, hpc, hj]) (by simp [playersOKbQ, hj])
      | obj fields =>
        exact loadStateQ_none_parts v
          (by simp [loadStateQ, hpc, hj]) (by simp [playersOKbQ, hj])

/-- Witness for C7: the snapshot with hole 25 (a number outside [0, 18))
is rejected wholesale, while the otherwise-valid snapshot with scores 15
and 2.5 beside a valid 3 is kept — the out-of-range and the non-integral
slots are coerced to null, the valid score survives, and the total is
recomputed to 3 from the validated scores. -/
theorem claim_c7_load_validation_witness :
    loadStateQ snapHole25 = none ∧
    holeOKbQ snapHole25 = false ∧
    (loadStateQ snapScore15).isSome = true ∧
    (loadStateQ snapScore15).map (fun g => g.players.map Player.scores) =
      some [none :: some 3 :: none :: List.replicate 15 none] ∧
    (loadStateQ snapScore15).map (fun g => g.players.map Player.total) =
      some [3] := by
  refine ⟨(claim_c7_load_validation snapHole25).2.2.1 (by decide), by decide,
    ?_, by decide, by decide⟩
  obtain ⟨g, hg⟩ := (claim_c7_load_validation snapScore15).2.2.2.1 (by decide)
  rw [hg]
  rfl

end Golf
